import Mathlib

/-!
Verification of the text-services layer of the `edit` repository:
`src/document.rs` (text-container backends) and `src/syntax.rs`
(syntax highlighting, file-type detection, smart indentation).

Bytes are modelled as `Nat` (values 0..255), byte strings as `List Nat`,
Rust `&str`/`String` as Lean `String` (operating on `String.data`).
-/

set_option maxRecDepth 8000

namespace Edit

/-! ### UTF-8 model

Shallow embedding of the UTF-8 facts `document.rs` relies on: encoding of a
scalar value, validity of a byte sequence, lossy conversion, char boundaries. -/

/-- A UTF-8 continuation byte: `0x80 ≤ b < 0xC0`. -/
def isCont (b : Nat) : Bool :=
  decide (0x80 ≤ b) && decide (b < 0xC0)

/-- Standard UTF-8 encoding of a Unicode scalar value. -/
def utf8Encode (c : Nat) : List Nat :=
  if c < 0x80 then [c]
  else if c < 0x800 then [0xC0 + c / 64, 0x80 + c % 64]
  else if c < 0x10000 then [0xE0 + c / 4096, 0x80 + (c / 64) % 64, 0x80 + c % 64]
  else [0xF0 + c / 262144, 0x80 + (c / 4096) % 64, 0x80 + (c / 64) % 64, 0x80 + c % 64]

/-- A Unicode scalar value: below `0x110000` and not a surrogate. -/
def ScalarValue (c : Nat) : Prop :=
  c < 0x110000 ∧ ¬(0xD800 ≤ c ∧ c < 0xE000)

instance (c : Nat) : Decidable (ScalarValue c) := by
  unfold ScalarValue; infer_instance

/-- A byte sequence is valid UTF-8 iff it is the encoding of a sequence of
Unicode scalar values. -/
def ValidUtf8 (bs : List Nat) : Prop :=
  ∃ cs : List Nat, (∀ c ∈ cs, ScalarValue c) ∧ bs = cs.flatMap utf8Encode

/-- Admissible second byte of a three-byte sequence led by `b0` (per the
Rust std validation: `E0 → A0..BF`, `ED → 80..9F`, otherwise a continuation). -/
def utf8Byte2Ok3 (b0 b1 : Nat) : Bool :=
  if b0 = 0xE0 then decide (0xA0 ≤ b1) && decide (b1 ≤ 0xBF)
  else if b0 = 0xED then decide (0x80 ≤ b1) && decide (b1 ≤ 0x9F)
  else isCont b1

/-- Admissible second byte of a four-byte sequence led by `b0` (per the
Rust std validation: `F0 → 90..BF`, `F4 → 80..8F`, otherwise a continuation). -/
def utf8Byte2Ok4 (b0 b1 : Nat) : Bool :=
  if b0 = 0xF0 then decide (0x90 ≤ b1) && decide (b1 ≤ 0xBF)
  else if b0 = 0xF4 then decide (0x80 ≤ b1) && decide (b1 ≤ 0x8F)
  else isCont b1

/-- Scalar value decoded from a well-formed three-byte sequence. -/
def scalar3 (b0 b1 b2 : Nat) : Nat :=
  (b0 - 0xE0) * 4096 + (b1 - 0x80) * 64 + (b2 - 0x80)

/-- Scalar value decoded from a well-formed four-byte sequence. -/
def scalar4 (b0 b1 b2 b3 : Nat) : Nat :=
  (b0 - 0xF0) * 262144 + (b1 - 0x80) * 4096 + (b2 - 0x80) * 64 + (b3 - 0x80)

/-- Modelled from the spec: one step of the lossy UTF-8 decoding used for
sanitization (spec section 4.1): given the next byte `b0` and the bytes after
it, produce the decoded scalar value (`U+FFFD` for an invalid or truncated
subpart, per the Rust std validation ranges) and the not-yet-consumed rest. -/
def lossyStep (b0 : Nat) (tl : List Nat) : Nat × List Nat :=
  if b0 < 0x80 then (b0, tl)
  else if 0xC2 ≤ b0 ∧ b0 ≤ 0xDF then
    match tl with
    | [] => (0xFFFD, [])
    | b1 :: tl1 =>
      if isCont b1 then ((b0 - 0xC0) * 64 + (b1 - 0x80), tl1)
      else (0xFFFD, b1 :: tl1)
  else if 0xE0 ≤ b0 ∧ b0 ≤ 0xEF then
    match tl with
    | [] => (0xFFFD, [])
    | b1 :: tl1 =>
      if utf8Byte2Ok3 b0 b1 then
        match tl1 with
        | [] => (0xFFFD, [])
        | b2 :: tl2 =>
          if isCont b2 then (scalar3 b0 b1 b2, tl2)
          else (0xFFFD, b2 :: tl2)
      else (0xFFFD, b1 :: tl1)
  else if 0xF0 ≤ b0 ∧ b0 ≤ 0xF4 then
    match tl with
    | [] => (0xFFFD, [])
    | b1 :: tl1 =>
      if utf8Byte2Ok4 b0 b1 then
        match tl1 with
        | [] => (0xFFFD, [])
        | b2 :: tl2 =>
          if isCont b2 then
            match tl2 with
            | [] => (0xFFFD, [])
            | b3 :: tl3 =>
              if isCont b3 then (scalar4 b0 b1 b2 b3, tl3)
              else (0xFFFD, b3 :: tl3)
          else (0xFFFD, b2 :: tl2)
      else (0xFFFD, b1 :: tl1)
  else (0xFFFD, tl)

/-- Fuel-indexed iteration of `lossyStep`; every step consumes at least one
byte, so fuel equal to the byte count never runs out. -/
def lossyAux : Nat → List Nat → List Nat
  | _, [] => []
  | 0, _ :: _ => []
  | fuel + 1, b0 :: tl => (lossyStep b0 tl).1 :: lossyAux fuel (lossyStep b0 tl).2

/-- Modelled from the spec: the crate's `arena::ArenaString::from_utf8_lossy`
(its `arena` module is not under `src/`) "sanitizes" bytes by "lossy conversion
to valid text, e.g. substituting replacement characters for invalid sequences"
(spec section 4.1). This is the scalar-value stream of the standard lossy UTF-8
decoding: valid sequences decode to their scalar value, invalid subparts are
replaced by `U+FFFD`. -/
def lossyScalars (bs : List Nat) : List Nat :=
  lossyAux bs.length bs

/-- Modelled from the spec: byte-level result of the lossy sanitization used by
`Document::replace` and `String::replace` (spec section 4.1), i.e. the UTF-8
re-encoding of the lossily decoded scalar stream. -/
def from_utf8_lossy (bs : List Nat) : List Nat :=
  (lossyScalars bs).flatMap utf8Encode

/-- Rust `str::is_char_boundary`: offset `0`, the total length, or a position
holding a non-continuation byte. -/
def is_char_boundary (bs : List Nat) (i : Nat) : Bool :=
  if i = 0 then true
  else
    match bs[i]? with
    | none => decide (i = bs.length)
    | some b => !isCont b

/-- Modelled from the spec: the crate's `helpers::ReplaceRange` impl for
`Vec<u8>` (its `helpers` module is not under `src/`); per spec section 4.1,
`replace` affects `[clamp(range.start), clamp(range.end))`, out-of-range
endpoints being clamped, never fatal (spec section 7). -/
def replace_range (v : List Nat) (start fin : Nat) (src : List Nat) : List Nat :=
  v.take (min start v.length) ++ src ++ v.drop (min fin v.length)

/-- Embeds `ReadableDocument::read_forward` for `Document`, `String` and
`&[u8]` (`src/document.rs` lines 94-104, 121-131, 133-143; the three impl
bodies are textually identical): `&s[off.min(s.len())..]`. -/
def read_forward (content : List Nat) (off : Nat) : List Nat :=
  content.drop (min off content.length)

/-- Embeds `ReadableDocument::read_backward` for `Document`, `String` and
`&[u8]` (`src/document.rs`): `&s[..off.min(s.len())]`. -/
def read_backward (content : List Nat) (off : Nat) : List Nat :=
  content.take (min off content.length)

namespace StringDoc

/-- Embeds `WriteableDocument::replace` for `String` (`src/document.rs` lines
145-158) and, identically, for `Document` (lines 106-119): the replacement is
sanitized with `from_utf8_lossy`, then spliced in with `replace_range`. -/
def replace (content : List Nat) (start fin : Nat) (repl : List Nat) : List Nat :=
  replace_range content start fin (from_utf8_lossy repl)

end StringDoc

namespace PathDoc

/-- Embeds `WriteableDocument::replace` for `PathBuf` (`src/document.rs` lines
172-178): the raw replacement bytes are spliced in with `replace_range`,
with no sanitization. -/
def replace (content : List Nat) (start fin : Nat) (repl : List Nat) : List Nat :=
  replace_range content start fin repl

end PathDoc

/-! ### UTF-8 lemmas -/

theorem scalar2_sound {b0 b1 : Nat} (h0 : 0xC2 ≤ b0 ∧ b0 ≤ 0xDF) (h1 : isCont b1 = true) :
    ScalarValue ((b0 - 0xC0) * 64 + (b1 - 0x80)) := by
  simp only [isCont, Bool.and_eq_true, decide_eq_true_eq] at h1
  exact ⟨by omega, by omega⟩

theorem scalar3_sound {b0 b1 b2 : Nat} (h0 : 0xE0 ≤ b0 ∧ b0 ≤ 0xEF)
    (h1 : utf8Byte2Ok3 b0 b1 = true) (h2 : isCont b2 = true) :
    ScalarValue (scalar3 b0 b1 b2) := by
  simp only [isCont, Bool.and_eq_true, decide_eq_true_eq] at h2
  unfold utf8Byte2Ok3 at h1
  split_ifs at h1 with e0 ed <;>
    simp only [isCont, Bool.and_eq_true, decide_eq_true_eq] at h1 <;>
    exact ⟨by unfold scalar3; omega, by unfold scalar3; omega⟩

theorem scalar4_sound {b0 b1 b2 b3 : Nat} (h0 : 0xF0 ≤ b0 ∧ b0 ≤ 0xF4)
    (h1 : utf8Byte2Ok4 b0 b1 = true) (h2 : isCont b2 = true) (h3 : isCont b3 = true) :
    ScalarValue (scalar4 b0 b1 b2 b3) := by
  simp only [isCont, Bool.and_eq_true, decide_eq_true_eq] at h2 h3
  unfold utf8Byte2Ok4 at h1
  split_ifs at h1 with f0 f4 <;>
    simp only [isCont, Bool.and_eq_true, decide_eq_true_eq] at h1 <;>
    exact ⟨by unfold scalar4; omega, by unfold scalar4; omega⟩

theorem scalarFFFD : ScalarValue 0xFFFD :=
  ⟨by omega, by omega⟩

theorem lossyStep_sound (b0 : Nat) (tl : List Nat) : ScalarValue (lossyStep b0 tl).1 := by
  unfold lossyStep
  by_cases h1 : b0 < 0x80
  · rw [if_pos h1]; exact ⟨by omega, by omega⟩
  rw [if_neg h1]
  by_cases h2 : 0xC2 ≤ b0 ∧ b0 ≤ 0xDF
  · rw [if_pos h2]
    rcases tl with _ | ⟨b1, tl1⟩
    · exact scalarFFFD
    dsimp only
    by_cases hc : isCont b1 = true
    · rw [if_pos hc]; exact scalar2_sound h2 hc
    · rw [if_neg hc]; exact scalarFFFD
  rw [if_neg h2]
  by_cases h3 : 0xE0 ≤ b0 ∧ b0 ≤ 0xEF
  · rw [if_pos h3]
    rcases tl with _ | ⟨b1, tl1⟩
    · exact scalarFFFD
    dsimp only
    by_cases hb1 : utf8Byte2Ok3 b0 b1 = true
    · rw [if_pos hb1]
      rcases tl1 with _ | ⟨b2, tl2⟩
      · exact scalarFFFD
      dsimp only
      by_cases hb2 : isCont b2 = true
      · rw [if_pos hb2]; exact scalar3_sound h3 hb1 hb2
      · rw [if_neg hb2]; exact scalarFFFD
    · rw [if_neg hb1]; exact scalarFFFD
  rw [if_neg h3]
  by_cases h4 : 0xF0 ≤ b0 ∧ b0 ≤ 0xF4
  · rw [if_pos h4]
    rcases tl with _ | ⟨b1, tl1⟩
    · exact scalarFFFD
    dsimp only
    by_cases hb1 : utf8Byte2Ok4 b0 b1 = true
    · rw [if_pos hb1]
      rcases tl1 with _ | ⟨b2, tl2⟩
      · exact scalarFFFD
      dsimp only
      by_cases hb2 : isCont b2 = true
      · rw [if_pos hb2]
        rcases tl2 with _ | ⟨b3, tl3⟩
        · exact scalarFFFD
        dsimp only
        by_cases hb3 : isCont b3 = true
        · rw [if_pos hb3]; exact scalar4_sound h4 hb1 hb2 hb3
        · rw [if_neg hb3]; exact scalarFFFD
      · rw [if_neg hb2]; exact scalarFFFD
    · rw [if_neg hb1]; exact scalarFFFD
  rw [if_neg h4]
  exact scalarFFFD

theorem lossyAux_sound : ∀ (fuel : Nat) (bs : List Nat), ∀ c ∈ lossyAux fuel bs, ScalarValue c := by
  intro fuel
  induction fuel with
  | zero =>
    intro bs c hc
    rcases bs with _ | ⟨b0, tl⟩ <;> simp [lossyAux] at hc
  | succ n ih =>
    intro bs c hc
    rcases bs with _ | ⟨b0, tl⟩
    · simp [lossyAux] at hc
    · simp only [lossyAux, List.mem_cons] at hc
      rcases hc with rfl | hc
      · exact lossyStep_sound b0 tl
      · exact ih _ c hc

theorem validUtf8_from_utf8_lossy (bs : List Nat) : ValidUtf8 (from_utf8_lossy bs) :=
  ⟨lossyScalars bs, lossyAux_sound bs.length bs, rfl⟩

theorem validUtf8_append {a b : List Nat} (ha : ValidUtf8 a) (hb : ValidUtf8 b) :
    ValidUtf8 (a ++ b) := by
  obtain ⟨cs, hcs, rfl⟩ := ha
  obtain ⟨ds, hds, rfl⟩ := hb
  refine ⟨cs ++ ds, ?_, by simp⟩
  intro c hc
  rcases List.mem_append.mp hc with h | h
  · exact hcs c h
  · exact hds c h

theorem utf8Encode_cont (c j : Nat) (h1 : 0 < j) (h2 : j < (utf8Encode c).length) :
    isCont ((utf8Encode c).getD j 0) = true := by
  have ha : c % 64 < 64 := Nat.mod_lt _ (by norm_num)
  have hb : (c / 64) % 64 < 64 := Nat.mod_lt _ (by norm_num)
  have hc : (c / 4096) % 64 < 64 := Nat.mod_lt _ (by norm_num)
  unfold utf8Encode at h2 ⊢
  split_ifs at h2 ⊢ <;> simp only [List.length] at h2 <;> interval_cases j <;>
    simp only [List.getD_cons_succ, List.getD_cons_zero] <;>
    simp only [isCont, Bool.and_eq_true, decide_eq_true_eq] <;> omega

theorem utf8Encode_head_le (c : Nat) (hc : c < 0x110000) :
    ∃ b rest, utf8Encode c = b :: rest ∧ b ≤ 0xF4 := by
  unfold utf8Encode
  split_ifs with h1 h2 h3
  · exact ⟨c, [], rfl, by omega⟩
  · refine ⟨_, _, rfl, ?_⟩
    have : c / 64 < 32 := Nat.div_lt_of_lt_mul (by omega)
    omega
  · refine ⟨_, _, rfl, ?_⟩
    have : c / 4096 < 16 := Nat.div_lt_of_lt_mul (by omega)
    omega
  · refine ⟨_, _, rfl, ?_⟩
    have : c / 262144 < 5 := Nat.div_lt_of_lt_mul (by omega)
    omega

theorem not_validUtf8_cons (b : Nat) (hb : 0xF5 ≤ b) (l : List Nat) :
    ¬ ValidUtf8 (b :: l) := by
  rintro ⟨cs, hcs, heq⟩
  rcases cs with _ | ⟨c, cs⟩
  · simp at heq
  · obtain ⟨b0, rest, he, hle⟩ := utf8Encode_head_le c (hcs c (by simp)).1
    rw [List.flatMap_cons, he] at heq
    simp only [List.cons_append, List.cons.injEq] at heq
    omega

theorem is_char_boundary_append_right (e r : List Nat) (i : Nat) (hik : e.length ≤ i)
    (hb : is_char_boundary (e ++ r) i = true) :
    is_char_boundary r (i - e.length) = true := by
  unfold is_char_boundary at hb ⊢
  rcases Nat.eq_zero_or_pos (i - e.length) with h0 | hpos
  · simp [h0]
  · rw [if_neg (by omega)] at hb
    rw [if_neg (by omega), ← List.getElem?_append_right hik]
    rcases hx : (e ++ r)[i]? with _ | b <;> rw [hx] at hb <;>
      simp only [List.length_append, decide_eq_true_eq] at hb ⊢
    · omega
    · exact hb

theorem not_boundary_inside (c : Nat) (r : List Nat) (i : Nat) (h1 : 0 < i)
    (h2 : i < (utf8Encode c).length) :
    is_char_boundary (utf8Encode c ++ r) i = false := by
  unfold is_char_boundary
  rw [if_neg (by omega), List.getElem?_append_left h2, List.getElem?_eq_getElem h2]
  have := utf8Encode_cont c i h1 h2
  rw [List.getD_eq_getElem _ _ h2] at this
  simp [this]

theorem validUtf8_take_drop_aux :
    ∀ (cs : List Nat), (∀ c ∈ cs, ScalarValue c) → ∀ i,
      is_char_boundary (cs.flatMap utf8Encode) i = true →
      ValidUtf8 ((cs.flatMap utf8Encode).take i) ∧ ValidUtf8 ((cs.flatMap utf8Encode).drop i) := by
  intro cs
  induction cs with
  | nil =>
    intro _ i _
    constructor <;> exact ⟨[], by simp, by simp⟩
  | cons c cs ih =>
    intro hcs i hb
    have hflat : (c :: cs).flatMap utf8Encode = utf8Encode c ++ cs.flatMap utf8Encode :=
      List.flatMap_cons ..
    rcases Nat.eq_zero_or_pos i with rfl | hi
    · exact ⟨⟨[], by simp, by simp⟩, ⟨c :: cs, hcs, by simp⟩⟩
    · by_cases hik : (utf8Encode c).length ≤ i
      · rw [hflat] at hb
        have hb2 := is_char_boundary_append_right _ _ i hik hb
        obtain ⟨h1, h2⟩ := ih (fun x hx => hcs x (List.mem_cons_of_mem c hx)) _ hb2
        constructor
        · rw [hflat, List.take_append_eq_append_take, List.take_of_length_le hik]
          exact validUtf8_append ⟨[c], by simpa using hcs c (by simp), by simp⟩ h1
        · rw [hflat, List.drop_append_eq_append_drop, List.drop_eq_nil_of_le hik,
            List.nil_append]
          exact h2
      · rw [hflat, not_boundary_inside c _ i hi (by omega)] at hb
        exact absurd hb (by simp)

theorem validUtf8_take_drop {bs : List Nat} {i : Nat} (hv : ValidUtf8 bs)
    (hb : is_char_boundary bs i = true) :
    ValidUtf8 (bs.take i) ∧ ValidUtf8 (bs.drop i) := by
  obtain ⟨cs, hcs, rfl⟩ := hv
  exact validUtf8_take_drop_aux cs hcs i hb

/-! ### Claims C1 and C2 -/

/-- C1 counterexample: the claim fails for the `PathBuf` backend.
`PathBuf::replace` splices the raw replacement bytes without sanitization
(`src/document.rs` lines 172-178): replacing the empty range `0..0` of the
one-byte content `"a"` with the invalid byte `0xFF` leaves the container
holding `[0xFF, 0x61]`, which is not valid encoded text. -/
theorem C1_counterexample :
    PathDoc.replace [97] 0 0 [255] = [255, 97] ∧ ¬ ValidUtf8 [255, 97] :=
  ⟨by decide, not_validUtf8_cons 255 (by omega) [97]⟩

/-- C1 (amended): for the `Document`/`String` text-buffer backend, for every
byte sequence (including invalid UTF-8) and every range whose clamped
endpoints lie on encoding boundaries, after `replace(range, b)` the
container's full byte content is valid encoded text, invalid input sequences
having been lossily substituted before commit. (The `PathBuf` backend commits
the raw bytes unsanitized, per the counterexample.) -/
theorem C1_string_replace_valid (content : List Nat) (start fin : Nat) (repl : List Nat)
    (hv : ValidUtf8 content)
    (hs : is_char_boundary content (min start content.length) = true)
    (hf : is_char_boundary content (min fin content.length) = true) :
    ValidUtf8 (StringDoc.replace content start fin repl) := by
  unfold StringDoc.replace replace_range
  exact validUtf8_append
    (validUtf8_append (validUtf8_take_drop hv hs).1 (validUtf8_from_utf8_lossy repl))
    (validUtf8_take_drop hv hf).2

/-- C1 witness: replacing the whole of the valid one-byte content `"a"` with
the invalid byte `0xFF` yields valid encoded text (the replacement
character). -/
theorem C1_witness : ValidUtf8 (StringDoc.replace [97] 0 1 [255]) :=
  C1_string_replace_valid [97] 0 1 [255] ⟨[97], by decide, rfl⟩ (by decide) (by decide)

/-- C2 counterexample: on the valid two-byte content `"é" = [0xC3, 0xA9]`,
`read_forward(1)` returns `[0xA9]`, a slice that begins with a continuation
byte: offset 1 falls strictly inside the two-byte character and the returned
slice is split exactly at the offset, not extended to a character boundary. -/
theorem C2_counterexample :
    ValidUtf8 [195, 169] ∧ read_forward [195, 169] 1 = [169] ∧
      isCont 169 = true ∧ is_char_boundary [195, 169] 1 = false :=
  ⟨⟨[233], by decide, rfl⟩, by decide, by decide, by decide⟩

/-- C2 (amended): `read_forward(off)` returns exactly the bytes from
`min(off, N)` to `N` and `read_backward(off)` those from `0` to `min(off, N)`:
the two slices always concatenate to the full content and out-of-range offsets
are clamped, but a mid-character offset is used as is, so a slice may begin
(forward) or end (backward) inside a multi-byte character. -/
theorem C2_read_clamped (content : List Nat) (off : Nat) :
    read_backward content off ++ read_forward content off = content ∧
      (content.length ≤ off →
        read_forward content off = [] ∧ read_backward content off = content) := by
  constructor
  · simp [read_backward, read_forward]
  · intro h
    unfold read_forward read_backward
    rw [Nat.min_eq_right h]
    exact ⟨List.drop_length content, List.take_length content⟩

/-- C2 witness: at the out-of-range offset 5 of the two-byte content, the
forward slice is empty and the backward slice is the full content. -/
theorem C2_witness :
    read_forward [195, 169] 5 = [] ∧ read_backward [195, 169] 5 = [195, 169] :=
  (C2_read_clamped [195, 169] 5).2 (by decide)

/-! ### File types and styles (`src/syntax.rs`) -/

/-- Embeds `enum FileType` (`src/syntax.rs` lines 10-22). -/
inductive FileType
  | Plain
  | Python
  | Rust
  | JavaScript
  | TypeScript
  | HTML
  | CSS
  | Dockerfile
  | YAML
deriving DecidableEq, Repr

/-- Embeds `syntect::highlighting::Color` (an external crate type used by
`src/syntax.rs`): an RGBA quadruple. -/
structure Color where
  r : Nat
  g : Nat
  b : Nat
  a : Nat
deriving DecidableEq, Repr

/-- Embeds `syntect::highlighting::Style` (external crate type): foreground,
background and font-style bits. No claim depends on the concrete values of the
default style, only on equality of styles. -/
structure Style where
  foreground : Color
  background : Color
  font_style : Nat
deriving DecidableEq, Repr

/-- The external crate's `Style::default()`. -/
def Style.default : Style :=
  ⟨⟨0, 0, 0, 255⟩, ⟨255, 255, 255, 255⟩, 0⟩

/-! ### File type detection -/

/-- ASCII fragment of Rust `str::to_lowercase` (`src/syntax.rs` line 69); the
filenames compared against are all ASCII. -/
def asciiLower (s : String) : String :=
  String.mk (s.data.map Char.toLower)

/-- Rust `Path::file_name`: the component after the last `/`. -/
def rustFileName (s : List Char) : List Char :=
  (s.reverse.takeWhile (fun c => c ≠ '/')).reverse

/-- Rust `Path::extension`: the portion of the file name after the final `.`;
none when there is no `.`, or when the only `.` is the leading character. -/
def rustExtension (s : List Char) : Option (List Char) :=
  let n := rustFileName s
  let suffix := n.reverse.takeWhile (fun c => c ≠ '.')
  if suffix.length = n.length then none
  else if suffix.length + 1 = n.length then none
  else some suffix.reverse

/-- The fixed table of well-known YAML filenames matched case-insensitively
(`src/syntax.rs` lines 69-74). -/
def yamlSpecialNames : List String :=
  [".travis.yml", ".github/workflows", "docker-compose.yml", "docker-compose.yaml",
   ".gitlab-ci.yml", "appveyor.yml", "circle.yml", "wercker.yml",
   "ansible.yml", "playbook.yml", "site.yml"]

/-- Embeds `SyntaxHighlighter::detect_file_type` (`src/syntax.rs` lines
62-98): exact `"Dockerfile"` match, case-insensitive well-known YAML names,
`.github/` prefix with a YAML suffix, then the (case-sensitive) extension
table. -/
def detect_file_type (filename : String) : FileType :=
  if filename = "Dockerfile" then FileType.Dockerfile
  else if yamlSpecialNames.contains (asciiLower filename) then FileType.YAML
  else if ".github/".data.isPrefixOf filename.data &&
      (".yml".data.isSuffixOf filename.data || ".yaml".data.isSuffixOf filename.data) then
    FileType.YAML
  else
    match rustExtension filename.data with
    | some e =>
      if e = "py".data then FileType.Python
      else if e = "rs".data then FileType.Rust
      else if e = "js".data then FileType.JavaScript
      else if e = "ts".data then FileType.TypeScript
      else if e = "tsx".data then FileType.TypeScript
      else if e = "html".data then FileType.HTML
      else if e = "htm".data then FileType.HTML
      else if e = "css".data then FileType.CSS
      else if e = "yaml".data then FileType.YAML
      else if e = "yml".data then FileType.YAML
      else FileType.Plain
    | none => FileType.Plain

/-! ### The highlighter state and cache -/

/-- Association-list insert with HashMap semantics: replace the value when the
key is present, otherwise add the entry. -/
def insertKV {K V : Type} [DecidableEq K] (m : List (K × V)) (k : K) (v : V) :
    List (K × V) :=
  if m.any (fun p => decide (p.1 = k)) then
    m.map (fun p => if p.1 = k then (k, v) else p)
  else m ++ [(k, v)]

/-- Association-list lookup. -/
def lookupKV {K V : Type} [DecidableEq K] (m : List (K × V)) (k : K) : Option V :=
  (m.find? (fun p => decide (p.1 = k))).map (fun p => p.2)

/-- Embeds `SyntaxHighlighter::MAX_CACHE_SIZE` (`src/syntax.rs` line 37). -/
def MAX_CACHE_SIZE : Nat := 1000

/-- Embeds `struct SyntaxHighlighter` (`src/syntax.rs` lines 29-34). The
syntect `SyntaxSet` is abstracted by the one feature the code probes at
highlight time, whether a YAML grammar is registered (`hasYamlGrammar`); the
`ThemeSet` by its list of registered theme names; the cache `HashMap` by an
association list whose (unspecified) iteration order is the list order. -/
structure SyntaxHighlighter where
  hasYamlGrammar : Bool
  themes : List String
  current_theme : String
  highlight_cache : List ((String × Nat) × List (Style × String))
deriving Repr

/-- Embeds `SyntaxHighlighter::new` (`src/syntax.rs` lines 39-48): syntect's
bundled defaults include a YAML grammar, and `ThemeSet::load_defaults()`
registers the seven stock themes (in `BTreeMap` key order). -/
def SyntaxHighlighter.new : SyntaxHighlighter :=
  ⟨true,
   ["InspiredGitHub", "Solarized (dark)", "Solarized (light)",
    "base16-eighties.dark", "base16-mocha.dark", "base16-ocean.dark",
    "base16-ocean.light"],
   "base16-ocean.dark", []⟩

/-! ### Custom YAML highlighting -/

/-- ASCII fragment of Rust `char::is_whitespace` (all inputs of interest are
ASCII). -/
def isRustWs (c : Char) : Bool :=
  c = ' ' || c = '\t' || c = '\n' || c = '\r' || c = '\x0b' || c = '\x0c'

/-- Rust `str::trim_start` on a character list. -/
def trimStartChars (s : List Char) : List Char :=
  s.dropWhile isRustWs

/-- The comment style of `custom_yaml_highlight` (`src/syntax.rs` 271-274). -/
def comment_style : Style :=
  { Style.default with foreground := ⟨128, 128, 128, 255⟩ }

/-- The key style of `custom_yaml_highlight` (`src/syntax.rs` 276-279). -/
def key_style : Style :=
  { Style.default with foreground := ⟨100, 149, 237, 255⟩ }

/-- The string style of `custom_yaml_highlight` (`src/syntax.rs` 281-284);
defined by the source but never attached to a span. -/
def string_style : Style :=
  { Style.default with foreground := ⟨152, 195, 121, 255⟩ }

/-- The number style of `custom_yaml_highlight` (`src/syntax.rs` 286-289);
defined by the source but never attached to a span. -/
def number_style : Style :=
  { Style.default with foreground := ⟨209, 154, 102, 255⟩ }

/-- The special style of `custom_yaml_highlight` (`src/syntax.rs` 291-294). -/
def special_style : Style :=
  { Style.default with foreground := ⟨198, 120, 221, 255⟩ }

/-- The span list built by the body of `custom_yaml_highlight`
(`src/syntax.rs` lines 296-326): a comment line is one comment-styled span; a
key-value line is the key-styled prefix through the first colon plus the
remainder when nonempty; a list-item line is the prefix before the first dash,
the dash, and the remainder when nonempty; anything else is one default span.
(The source's `else` arms inside the two `if let Some(..)` are unreachable
because the branch conditions guarantee the `find` succeeds.) -/
def customYamlSpans (line : String) : List (Style × String) :=
  let l := line.data
  if (trimStartChars l).head? = some '#' then
    [(comment_style, line)]
  else if l.contains ':' && !((trimStartChars l).head? = some '-') then
    let a := l.takeWhile (fun c => c ≠ ':')
    let b := l.drop (a.length + 1)
    if b.isEmpty then [(key_style, String.mk (a ++ [':']))]
    else [(key_style, String.mk (a ++ [':'])), (Style.default, String.mk b)]
  else if (trimStartChars l).head? = some '-' then
    let a := l.takeWhile (fun c => c ≠ '-')
    let b := l.drop (a.length + 1)
    if b.isEmpty then [(Style.default, String.mk a), (special_style, "-")]
    else [(Style.default, String.mk a), (special_style, "-"), (Style.default, String.mk b)]
  else
    [(Style.default, line)]

/-- Embeds `SyntaxHighlighter::custom_yaml_highlight` (`src/syntax.rs` lines
261-327): `None` when a native YAML grammar is registered (the feature probe),
otherwise the heuristic spans. -/
def custom_yaml_highlight (hl : SyntaxHighlighter) (line : String) :
    Option (List (Style × String)) :=
  if hl.hasYamlGrammar then none else some (customYamlSpans line)

/-! ### highlight_line and cache maintenance -/

/-- Embeds `SyntaxHighlighter::prune_cache_if_needed` (`src/syntax.rs` lines
169-180): when above the maximum, remove `len - MAX` existing keys (the first
ones in the map's iteration order, modelled as list order). -/
def prune_cache_if_needed (hl : SyntaxHighlighter) : SyntaxHighlighter :=
  if MAX_CACHE_SIZE < hl.highlight_cache.length then
    { hl with highlight_cache :=
        hl.highlight_cache.drop (hl.highlight_cache.length - MAX_CACHE_SIZE) }
  else hl

/-- The type abstracting syntect's span computation (`HighlightLines::new`
with the active theme followed by `highlight_line`, including the
`unwrap_or_else` fallback, `src/syntax.rs` lines 146-153): a function of the
active theme name, the file type (which determines the resolved grammar
within the fixed default syntax set, lines 117-144), and the line text. -/
def GrammarFn : Type :=
  String → FileType → String → List (Style × String)

/-- Embeds `SyntaxHighlighter::highlight_line` (`src/syntax.rs` lines
100-167): for YAML without a native grammar, return the custom spans
immediately (no cache access); otherwise compute the spans via the delegated
grammar engine `g`, prune the cache when it has reached `MAX_CACHE_SIZE`,
insert the result keyed by `(line, line_number)`, and return the spans. -/
def highlight_line (g : GrammarFn) (hl : SyntaxHighlighter) (line : String)
    (file_type : FileType) (line_number : Nat) :
    List (Style × String) × SyntaxHighlighter :=
  match (if file_type = FileType.YAML then custom_yaml_highlight hl line else none) with
  | some custom => (custom, hl)
  | none =>
    let cache_key := (line, line_number)
    let highlighted := g hl.current_theme file_type line
    let hl1 :=
      if MAX_CACHE_SIZE ≤ hl.highlight_cache.length then prune_cache_if_needed hl else hl
    (highlighted,
     { hl1 with highlight_cache := insertKV hl1.highlight_cache cache_key highlighted })

/-- Embeds `SyntaxHighlighter::clear_cache` (`src/syntax.rs` lines 182-184). -/
def clear_cache (hl : SyntaxHighlighter) : SyntaxHighlighter :=
  { hl with highlight_cache := [] }

/-- Embeds `SyntaxHighlighter::set_theme` (`src/syntax.rs` lines 186-194). -/
def set_theme (hl : SyntaxHighlighter) (theme_name : String) :
    Bool × SyntaxHighlighter :=
  if hl.themes.contains theme_name then
    (true, clear_cache { hl with current_theme := theme_name })
  else (false, hl)

/-- The concatenated text of a span sequence. -/
def spanConcat : List (Style × String) → String
  | [] => ""
  | p :: rest => p.2 ++ spanConcat rest

/-- A concrete grammar function: one default-styled span covering the line,
exactly the source's own error fallback `vec![(Style::default(), line)]`
(`src/syntax.rs` line 153). -/
def gPlain : GrammarFn := fun _ _ line => [(Style.default, line)]

/-! ### Claim C8 -/

/-- C8 counterexample: the extension table lookup is case-sensitive, not
case-insensitive: `"main.PY"` is detected as `Plain` while `"main.py"` is
detected as `Python`. -/
theorem C8_counterexample :
    detect_file_type "main.PY" = FileType.Plain ∧
      detect_file_type "main.py" = FileType.Python := by
  decide

/-- C8 (amended): the extension-to-type table is matched case-sensitively
(`"main.PY"` maps to `Plain`, `"main.py"` to `Python`); only the well-known
full-filename YAML table is matched case-insensitively (`"APPVEYOR.YML"` maps
to `YAML`); and the two extensions `"ts"` and `"tsx"` both map to
`TypeScript`. -/
theorem C8_detect_cases :
    detect_file_type "main.PY" = FileType.Plain ∧
      detect_file_type "main.py" = FileType.Python ∧
      detect_file_type "app.ts" = FileType.TypeScript ∧
      detect_file_type "app.tsx" = FileType.TypeScript ∧
      detect_file_type "APPVEYOR.YML" = FileType.YAML ∧
      detect_file_type "Dockerfile" = FileType.Dockerfile ∧
      detect_file_type "notes.txt" = FileType.Plain := by
  decide

/-! ### Claim C6 -/

/-- C6: `set_theme(name)` with a registered name returns true, makes `name`
the active theme, empties the cache and leaves the theme registry (and the
grammar probe) unchanged; with an unregistered name it returns false and
leaves the whole state unchanged. -/
theorem C6_set_theme (hl : SyntaxHighlighter) (name : String) :
    (hl.themes.contains name = true →
      set_theme hl name =
        (true, { hl with current_theme := name, highlight_cache := [] })) ∧
    (hl.themes.contains name = false → set_theme hl name = (false, hl)) := by
  constructor
  · intro h
    have h2 : name ∈ hl.themes := by simpa using h
    simp [set_theme, clear_cache, h2]
  · intro h
    have h2 : name ∉ hl.themes := by simpa using h
    simp [set_theme, h2]

/-- C6 witness: on a fresh highlighter, selecting the stock theme
`"InspiredGitHub"` succeeds and selecting an unknown name fails and changes
nothing. -/
theorem C6_witness :
    set_theme SyntaxHighlighter.new "InspiredGitHub" =
      (true, { SyntaxHighlighter.new with
                current_theme := "InspiredGitHub", highlight_cache := [] }) ∧
    set_theme SyntaxHighlighter.new "no-such-theme" = (false, SyntaxHighlighter.new) :=
  ⟨(C6_set_theme SyntaxHighlighter.new "InspiredGitHub").1 (by decide),
   (C6_set_theme SyntaxHighlighter.new "no-such-theme").2 (by decide)⟩

/-! ### Claim C10 -/

/-- C10: the spans returned by `highlight_line` are independent of the cache
contents: two highlighter states agreeing on the grammar probe, the theme
registry and the active theme (but with arbitrary caches) yield equal span
sequences — the cache is written but never consulted for the returned
result. -/
theorem C10_cache_independence (g : GrammarFn) (hl1 hl2 : SyntaxHighlighter)
    (line : String) (file_type : FileType) (line_number : Nat)
    (hys : hl1.hasYamlGrammar = hl2.hasYamlGrammar)
    (_hth : hl1.themes = hl2.themes)
    (hcur : hl1.current_theme = hl2.current_theme) :
    (highlight_line g hl1 line file_type line_number).1 =
      (highlight_line g hl2 line file_type line_number).1 := by
  unfold highlight_line custom_yaml_highlight
  rw [hys, hcur]
  cases hx : (if file_type = FileType.YAML then
      (if hl2.hasYamlGrammar = true then none else some (customYamlSpans line))
    else none) with
  | some c => rfl
  | none => rfl

/-- C10 witness: a fresh highlighter and one with a nonempty cache return the
same spans for the same request. -/
theorem C10_witness :
    (highlight_line gPlain SyntaxHighlighter.new "q" FileType.Plain 0).1 =
      (highlight_line gPlain
        { SyntaxHighlighter.new with highlight_cache := [(("z", 3), [])] }
        "q" FileType.Plain 0).1 :=
  C10_cache_independence gPlain SyntaxHighlighter.new
    { SyntaxHighlighter.new with highlight_cache := [(("z", 3), [])] }
    "q" FileType.Plain 0 rfl rfl rfl

/-! ### Claim C5 -/

theorem findKV_replace {K V : Type} [DecidableEq K] (m : List (K × V)) (k : K) (v : V)
    (h : m.any (fun p => decide (p.1 = k)) = true) :
    (m.map (fun p => if p.1 = k then (k, v) else p)).find?
        (fun p => decide (p.1 = k)) = some (k, v) := by
  induction m with
  | nil => simp at h
  | cons p m ih =>
    by_cases hp : p.1 = k
    · rw [List.map_cons, if_pos hp, List.find?_cons_of_pos _ (by simp)]
    · rw [List.map_cons, if_neg hp, List.find?_cons_of_neg _ (by simp [hp])]
      exact ih (by simpa [List.any_cons, hp] using h)

theorem findKV_append {K V : Type} [DecidableEq K] (m : List (K × V)) (k : K) (v : V)
    (h : m.any (fun p => decide (p.1 = k)) = false) :
    (m ++ [(k, v)]).find? (fun p => decide (p.1 = k)) = some (k, v) := by
  induction m with
  | nil => simp
  | cons p m ih =>
    simp only [List.any_cons, Bool.or_eq_false_iff, decide_eq_false_iff_not] at h
    rw [List.cons_append, List.find?_cons_of_neg _ (by simp [h.1])]
    exact ih (by simp [h.2])

theorem lookupKV_insertKV {K V : Type} [DecidableEq K] (m : List (K × V)) (k : K) (v : V) :
    lookupKV (insertKV m k v) k = some v := by
  unfold insertKV lookupKV
  by_cases h : m.any (fun p => decide (p.1 = k)) = true
  · rw [if_pos h, findKV_replace m k v h]
    rfl
  · rw [if_neg h, findKV_append m k v (Bool.eq_false_iff.mpr h)]
    rfl

/-- C5 counterexample: on a highlighter whose grammar registry has no YAML
grammar, the heuristic fallback path of `highlight_line` returns the custom
spans without inserting anything into the cache: after the call the cache is
still empty, so it contains no entry keyed by the line and index. -/
theorem C5_counterexample :
    (highlight_line gPlain
        ⟨false, SyntaxHighlighter.new.themes, "base16-ocean.dark", []⟩
        "a: b" FileType.YAML 0).1 =
      [(key_style, "a:"), (Style.default, " b")] ∧
    (highlight_line gPlain
        ⟨false, SyntaxHighlighter.new.themes, "base16-ocean.dark", []⟩
        "a: b" FileType.YAML 0).2.highlight_cache = [] := by
  constructor <;> rfl

/-- C5 (amended): on the delegated grammar path (any non-YAML file type, or
YAML with a native grammar registered) the cache after the call contains an
entry keyed `(line_text, line_index)` whose value is the returned span
sequence; on the heuristic YAML fallback path the spans are returned without
being cached and the state is unchanged. -/
theorem C5_cache_insert (g : GrammarFn) (hl : SyntaxHighlighter) (line : String)
    (file_type : FileType) (line_number : Nat) :
    ((file_type = FileType.YAML ∧ hl.hasYamlGrammar = false) →
        (highlight_line g hl line file_type line_number).2 = hl) ∧
    ((file_type = FileType.YAML → hl.hasYamlGrammar = true) →
        lookupKV (highlight_line g hl line file_type line_number).2.highlight_cache
            (line, line_number) =
          some (highlight_line g hl line file_type line_number).1) := by
  constructor
  · rintro ⟨hft, hy⟩
    subst hft
    simp [highlight_line, custom_yaml_highlight, hy]
  · intro h
    unfold highlight_line custom_yaml_highlight
    have hnone : (if file_type = FileType.YAML then
        (if hl.hasYamlGrammar = true then none else some (customYamlSpans line))
      else none) = (none : Option (List (Style × String))) := by
      by_cases hft : file_type = FileType.YAML
      · rw [if_pos hft, if_pos (h hft)]
      · rw [if_neg hft]
    rw [hnone]
    exact lookupKV_insertKV ..

/-- C5 witness: after highlighting a plain line on a fresh highlighter, the
cache holds the returned spans under the key `(line, index)`. -/
theorem C5_witness :
    lookupKV (highlight_line gPlain SyntaxHighlighter.new "x" FileType.Plain 7).2.highlight_cache
        ("x", 7) =
      some (highlight_line gPlain SyntaxHighlighter.new "x" FileType.Plain 7).1 :=
  (C5_cache_insert gPlain SyntaxHighlighter.new "x" FileType.Plain 7).2 (by decide)

/-! ### Claim C7 -/

theorem takeWhile_drop_char (ch : Char) :
    ∀ l : List Char, l.contains ch = true →
      l.takeWhile (fun c => c ≠ ch) ++
        ch :: l.drop ((l.takeWhile (fun c => c ≠ ch)).length + 1) = l := by
  intro l
  induction l with
  | nil =>
    intro h
    simp at h
  | cons c rest ih =>
    intro h
    by_cases hc : c = ch
    · subst hc
      rw [List.takeWhile_cons_of_neg (by simp)]
      simp
    · rw [List.takeWhile_cons_of_pos (p := fun c => decide (c ≠ ch)) (by simp [hc])]
      simp only [List.cons_append, List.length_cons, List.drop_succ_cons]
      have hrest : rest.contains ch = true := by
        have hne : ch ≠ c := Ne.symm hc
        simpa [List.contains_cons, hne] using h
      exact congrArg (c :: ·) (ih hrest)

theorem contains_of_trimStart_head (c : Char) :
    ∀ l : List Char, (trimStartChars l).head? = some c → l.contains c = true := by
  intro l
  induction l with
  | nil =>
    intro h
    simp [trimStartChars] at h
  | cons x rest ih =>
    intro h
    by_cases hx : isRustWs x = true
    · rw [trimStartChars, List.dropWhile_cons_of_pos hx] at h
      have hm : c ∈ rest := by simpa using ih h
      simp [List.contains_cons, hm]
    · rw [trimStartChars, List.dropWhile_cons_of_neg hx] at h
      simp only [List.head?_cons, Option.some.injEq] at h
      subst h
      simp [List.contains_cons]

theorem spanConcat_customYamlSpans (line : String) :
    spanConcat (customYamlSpans line) = line := by
  unfold customYamlSpans
  by_cases h1 : (trimStartChars line.data).head? = some '#'
  · rw [if_pos h1]
    simp [spanConcat, String.append_empty]
  rw [if_neg h1]
  by_cases h2 :
      (line.data.contains ':' && !((trimStartChars line.data).head? = some '-')) = true
  · rw [if_pos h2]
    have hcol : line.data.contains ':' = true := (Bool.and_eq_true .. ▸ h2).1
    dsimp only
    by_cases hb :
        (line.data.drop
          ((line.data.takeWhile (fun c => c ≠ ':')).length + 1)).isEmpty = true
    · rw [if_pos hb]
      have hbnil := List.isEmpty_iff.mp hb
      apply String.ext
      simp only [spanConcat, String.append_empty, String.data_append]
      conv_rhs => rw [← takeWhile_drop_char ':' line.data hcol]
      rw [hbnil]
    · rw [if_neg hb]
      apply String.ext
      simp only [spanConcat, String.append_empty, String.data_append]
      conv_rhs => rw [← takeWhile_drop_char ':' line.data hcol]
      simp
  rw [if_neg h2]
  by_cases h3 : (trimStartChars line.data).head? = some '-'
  · rw [if_pos h3]
    have hdash : line.data.contains '-' = true := contains_of_trimStart_head '-' line.data h3
    dsimp only
    by_cases hb :
        (line.data.drop
          ((line.data.takeWhile (fun c => c ≠ '-')).length + 1)).isEmpty = true
    · rw [if_pos hb]
      have hbnil := List.isEmpty_iff.mp hb
      apply String.ext
      simp only [spanConcat, String.append_empty, String.data_append]
      conv_rhs => rw [← takeWhile_drop_char '-' line.data hdash]
      rw [hbnil]
    · rw [if_neg hb]
      apply String.ext
      simp only [spanConcat, String.append_empty, String.data_append]
      conv_rhs => rw [← takeWhile_drop_char '-' line.data hdash]
      simp
  rw [if_neg h3]
  simp [spanConcat, String.append_empty]

/-- C7: the concatenation of the text components of the spans returned by
`highlight_line` equals the input line exactly, on the heuristic fallback path
(comment line, key-value line, list-item line, plain line) and on the
delegated grammar path (under the spec's characterization of the external
grammar engine: its spans cover exactly the line, spec section 4.3). -/
theorem C7_spans_reconstruct (g : GrammarFn)
    (hg : ∀ th ft l, spanConcat (g th ft l) = l)
    (hl : SyntaxHighlighter) (line : String) (file_type : FileType) (line_number : Nat) :
    spanConcat (highlight_line g hl line file_type line_number).1 = line := by
  unfold highlight_line
  cases hx : (if file_type = FileType.YAML then custom_yaml_highlight hl line else none) with
  | some custom =>
    have hc : custom = customYamlSpans line := by
      by_cases hft : file_type = FileType.YAML
      · rw [if_pos hft] at hx
        unfold custom_yaml_highlight at hx
        by_cases hy : hl.hasYamlGrammar = true
        · rw [if_pos hy] at hx
          cases hx
        · rw [if_neg hy] at hx
          exact (Option.some.inj hx).symm
      · rw [if_neg hft] at hx
        cases hx
    dsimp only
    rw [hc]
    exact spanConcat_customYamlSpans line
  | none =>
    dsimp only
    exact hg ..

/-- C7 witness: with the concrete plain-span grammar function, highlighting
`"hello"` returns spans whose concatenation is `"hello"`. -/
theorem C7_witness :
    spanConcat (highlight_line gPlain SyntaxHighlighter.new "hello" FileType.Plain 0).1 =
      "hello" :=
  C7_spans_reconstruct gPlain
    (fun th ft l => by simp [gPlain, spanConcat, String.append_empty])
    SyntaxHighlighter.new "hello" FileType.Plain 0

/-! ### Claim C3 -/

/-- A sequence of `highlight_line` calls: fold over a list of
(line text, file type, line index) requests, keeping the evolving state. -/
def run_calls (g : GrammarFn) (hl : SyntaxHighlighter)
    (calls : List (String × FileType × Nat)) : SyntaxHighlighter :=
  calls.foldl (fun h c => (highlight_line g h c.1 c.2.1 c.2.2).2) hl

/-- The call sequence used to exhibit the cache overshoot: `n` distinct keys
`("x", 0) .. ("x", n-1)`, all with the `Plain` file type. -/
def c3Calls (n : Nat) : List (String × FileType × Nat) :=
  (List.range n).map (fun i => ("x", (FileType.Plain, i)))

theorem length_insertKV {K V : Type} [DecidableEq K] (m : List (K × V)) (k : K) (v : V) :
    (insertKV m k v).length ≤ m.length + 1 := by
  unfold insertKV
  split_ifs with h
  · simp
  · simp

theorem insertKV_fresh {K V : Type} [DecidableEq K] (m : List (K × V)) (k : K) (v : V)
    (h : m.any (fun p => decide (p.1 = k)) = false) :
    insertKV m k v = m ++ [(k, v)] := by
  unfold insertKV
  rw [if_neg (by simp [h])]

theorem length_prune (hl : SyntaxHighlighter) :
    (prune_cache_if_needed hl).highlight_cache.length =
      min hl.highlight_cache.length MAX_CACHE_SIZE := by
  unfold prune_cache_if_needed
  split_ifs with h
  · simp only [List.length_drop]
    omega
  · omega

theorem any_drop_false {α : Type} (l : List α) (k : Nat) (p : α → Bool)
    (h : l.any p = false) : (l.drop k).any p = false := by
  rw [List.any_eq_false] at h ⊢
  intro x hx
  exact h x (List.drop_subset k l hx)

theorem prune_any_false (hl : SyntaxHighlighter) (p : (String × Nat) × List (Style × String) → Bool)
    (h : hl.highlight_cache.any p = false) :
    (prune_cache_if_needed hl).highlight_cache.any p = false := by
  unfold prune_cache_if_needed
  split_ifs with hc
  · exact any_drop_false _ _ p h
  · exact h

theorem prune_preserves_rest (hl : SyntaxHighlighter) :
    (prune_cache_if_needed hl).hasYamlGrammar = hl.hasYamlGrammar ∧
      (prune_cache_if_needed hl).themes = hl.themes ∧
      (prune_cache_if_needed hl).current_theme = hl.current_theme := by
  unfold prune_cache_if_needed
  split_ifs <;> exact ⟨rfl, rfl, rfl⟩

/-- The exact cache after a non-YAML `highlight_line` call with a key not yet
present: the (possibly pruned) old cache with the new entry appended. -/
theorem highlight_line_cache_step (g : GrammarFn) (hl : SyntaxHighlighter) (line : String)
    (ft : FileType) (n : Nat) (hft : ft ≠ FileType.YAML)
    (hfresh : hl.highlight_cache.any (fun p => decide (p.1 = (line, n))) = false) :
    (highlight_line g hl line ft n).2.highlight_cache =
      (if MAX_CACHE_SIZE ≤ hl.highlight_cache.length then prune_cache_if_needed hl
        else hl).highlight_cache ++ [((line, n), g hl.current_theme ft line)] := by
  unfold highlight_line
  rw [if_neg hft]
  dsimp only
  by_cases hlen : MAX_CACHE_SIZE ≤ hl.highlight_cache.length
  · rw [if_pos hlen]
    exact insertKV_fresh _ _ _ (prune_any_false hl _ hfresh)
  · rw [if_neg hlen]
    exact insertKV_fresh _ _ _ hfresh

/-- The cache-length bound of one `highlight_line` call. -/
theorem highlight_line_cache_bound (g : GrammarFn) (hl : SyntaxHighlighter) (line : String)
    (ft : FileType) (n : Nat) (h : hl.highlight_cache.length ≤ MAX_CACHE_SIZE + 1) :
    (highlight_line g hl line ft n).2.highlight_cache.length ≤ MAX_CACHE_SIZE + 1 := by
  unfold highlight_line
  cases hx : (if ft = FileType.YAML then custom_yaml_highlight hl line else none) with
  | some c => exact h
  | none =>
    dsimp only
    refine le_trans (length_insertKV _ _ _) ?_
    by_cases hlen : MAX_CACHE_SIZE ≤ hl.highlight_cache.length
    · rw [if_pos hlen]
      have := length_prune hl
      omega
    · rw [if_neg hlen]
      omega

/-- C3 (amended): after any sequence of `highlight_line` calls starting from a
fresh instance, the cache holds at most `MAX_CACHE_SIZE + 1 = 1001` entries:
the pruning runs before the insertion and only brings the size down to 1000,
so the insertion itself can leave 1001 entries. -/
theorem C3_cache_bounded (g : GrammarFn) (calls : List (String × FileType × Nat)) :
    (run_calls g SyntaxHighlighter.new calls).highlight_cache.length ≤ MAX_CACHE_SIZE + 1 := by
  suffices h : ∀ hl : SyntaxHighlighter, hl.highlight_cache.length ≤ MAX_CACHE_SIZE + 1 →
      (run_calls g hl calls).highlight_cache.length ≤ MAX_CACHE_SIZE + 1 by
    refine h SyntaxHighlighter.new ?_
    show (0 : Nat) ≤ MAX_CACHE_SIZE + 1
    omega
  induction calls with
  | nil =>
    intro hl h
    exact h
  | cons c cs ih =>
    intro hl h
    rw [run_calls, List.foldl_cons]
    exact ih _ (highlight_line_cache_bound g hl c.1 c.2.1 c.2.2 h)

/-- The cache contents along the `c3Calls` sequence: after `n` calls the size
is exactly `min n 1001` and every key is some `("x", j)` with `j < n`. -/
theorem c3_invariant (g : GrammarFn) :
    ∀ n, (run_calls g SyntaxHighlighter.new (c3Calls n)).highlight_cache.length =
        min n (MAX_CACHE_SIZE + 1) ∧
      ∀ p ∈ (run_calls g SyntaxHighlighter.new (c3Calls n)).highlight_cache,
        ∃ j, j < n ∧ p.1 = ("x", j) := by
  intro n
  induction n with
  | zero =>
    constructor
    · rfl
    · intro p hp
      simp [run_calls, c3Calls, SyntaxHighlighter.new] at hp
  | succ n ih =>
    obtain ⟨hlen, hmem⟩ := ih
    have hsplit : c3Calls (n + 1) = c3Calls n ++ [("x", (FileType.Plain, n))] := by
      unfold c3Calls
      rw [List.range_succ, List.map_append]
      rfl
    have hrun : run_calls g SyntaxHighlighter.new (c3Calls (n + 1)) =
        (highlight_line g (run_calls g SyntaxHighlighter.new (c3Calls n))
          "x" FileType.Plain n).2 := by
      rw [hsplit]
      unfold run_calls
      rw [List.foldl_append]
      rfl
    set s := run_calls g SyntaxHighlighter.new (c3Calls n) with hs
    have hfresh : s.highlight_cache.any (fun p => decide (p.1 = ("x", n))) = false := by
      rw [List.any_eq_false]
      intro p hp
      obtain ⟨j, hj, hpj⟩ := hmem p hp
      simp only [decide_eq_true_eq, hpj, Prod.mk.injEq]
      rintro ⟨-, rfl⟩
      omega
    have hstep := highlight_line_cache_step g s "x" FileType.Plain n (by decide) hfresh
    rw [hrun, hstep]
    constructor
    · rw [List.length_append]
      by_cases hlen2 : MAX_CACHE_SIZE ≤ s.highlight_cache.length
      · rw [if_pos hlen2]
        have := length_prune s
        simp only [List.length_cons, List.length_nil]
        omega
      · rw [if_neg hlen2]
        simp only [List.length_cons, List.length_nil]
        omega
    · intro p hp
      rcases List.mem_append.mp hp with hp | hp
      · have hps : p ∈ s.highlight_cache := by
          by_cases hlen2 : MAX_CACHE_SIZE ≤ s.highlight_cache.length
          · rw [if_pos hlen2] at hp
            unfold prune_cache_if_needed at hp
            split_ifs at hp
            · exact List.drop_subset _ _ hp
            · exact hp
          · rw [if_neg hlen2] at hp
            exact hp
        obtain ⟨j, hj, hpj⟩ := hmem p hps
        exact ⟨j, by omega, hpj⟩
      · simp only [List.mem_singleton] at hp
        subst hp
        exact ⟨n, by omega, rfl⟩

/-- C3 counterexample: starting from a fresh instance, 1001 `highlight_line`
calls with distinct keys leave 1001 entries in the cache, exceeding the
configured maximum of 1000: the eviction runs before the insertion and only
prunes down to the maximum, so the insertion overshoots it by one. -/
theorem C3_counterexample :
    MAX_CACHE_SIZE <
      (run_calls gPlain SyntaxHighlighter.new
        (c3Calls (MAX_CACHE_SIZE + 1))).highlight_cache.length := by
  have h := (c3_invariant gPlain (MAX_CACHE_SIZE + 1)).1
  rw [h]
  omega

/-! ### Regex matchers of the indent rule tables

Each definition embeds one compiled regex of `src/syntax.rs` (applied through
`Regex::is_match`, i.e. unanchored search unless the pattern starts with `^`).
The classes `\s` and `\w` are modelled by their ASCII fragments. -/

/-- Regex class `\s` (ASCII fragment). -/
def wsRX (c : Char) : Bool :=
  c = ' ' || c = '\t' || c = '\n' || c = '\r' || c = '\x0b' || c = '\x0c'

/-- Regex class `\w`, i.e. `[0-9A-Za-z_]`. -/
def wordRX (c : Char) : Bool :=
  c.isAlphanum || c = '_'

/-- Greedy `\s*`. -/
def dropWS (l : List Char) : List Char :=
  l.dropWhile wsRX

/-- Regex `.` never matches a newline, so `.*$` matches the whole remainder
exactly when it is newline-free. -/
def noNL (l : List Char) : Bool :=
  l.all (fun c => c ≠ '\n')

/-- Tail matcher `\s*(?:M.*)?$` for a nonempty marker `M` (and plain `\s*$`
when `M` is empty): whitespace, then nothing, or `M` and a newline-free
remainder. -/
def optMarkerEnd (marker : List Char) (t : List Char) : Bool :=
  (dropWS t).isEmpty ||
    (!marker.isEmpty && marker.isPrefixOf (dropWS t) &&
      noNL ((dropWS t).drop marker.length))

/-- Unanchored search for `T\s*(?:M.*)?$` with a literal trigger `T`. -/
def endsAfterRX (trig marker : List Char) : List Char → Bool
  | [] => false
  | c :: rest =>
    (trig.isPrefixOf (c :: rest) && optMarkerEnd marker ((c :: rest).drop trig.length)) ||
      endsAfterRX trig marker rest

/-- Embeds the Python increase regex `:\s*(?:#.*)?$` (`src/syntax.rs` 345). -/
def pyIncColonRX (s : String) : Bool :=
  endsAfterRX [':'] ['#'] s.data

/-- Embeds the Python increase regex `^\s*@\w+` (decorators, line 346). -/
def pyDecoratorRX (s : String) : Bool :=
  match dropWS s.data with
  | '@' :: c :: _ => wordRX c
  | _ => false

/-- The keyword alternation of the Python decrease regex. -/
def pyDecKeywords : List (List Char) :=
  ["elif".data, "else".data, "except".data, "finally".data, "break".data,
   "continue".data, "pass".data, "return".data]

/-- Word boundary `\b` after a keyword: end of text or a non-word character. -/
def boundaryAfter (t : List Char) : Bool :=
  match t.head? with
  | none => true
  | some c => !wordRX c

/-- Embeds the Python decrease regex
`^\s*(elif|else|except|finally|break|continue|pass|return)\b` (line 349). -/
def pyDecRX (s : String) : Bool :=
  pyDecKeywords.any (fun kw =>
    kw.isPrefixOf (dropWS s.data) && boundaryAfter ((dropWS s.data).drop kw.length))

/-- Matcher for `.*:\s*(?:#.*)?$`: a colon reachable without crossing a
newline, followed by the end-of-line tail. -/
def restColonEndRX : List Char → Bool
  | [] => false
  | c :: rest =>
    if c = '\n' then false
    else (c = ':' && optMarkerEnd ['#'] rest) || restColonEndRX rest

/-- Embeds the Python decrease-increase regex
`^\s*(elif|else|except|finally).*:\s*(?:#.*)?$` (line 352). -/
def pyDecIncRX (s : String) : Bool :=
  ["elif".data, "else".data, "except".data, "finally".data].any (fun kw =>
    kw.isPrefixOf (dropWS s.data) && restColonEndRX ((dropWS s.data).drop kw.length))

/-- Embeds the Rust/JavaScript increase regex `\{\s*(?://.*)?$` (lines 360,
375). -/
def braceEndRX (s : String) : Bool :=
  endsAfterRX ['{'] ['/', '/'] s.data

/-- Embeds the Rust/JavaScript increase regex `=>\s*(?://.*)?$` (lines 361,
376). -/
def arrowEndRX (s : String) : Bool :=
  endsAfterRX ['=', '>'] ['/', '/'] s.data

/-- Anchored search `^\s*T` for a literal `T` (the `^\s*\}` and `^\s*</`
decrease regexes, lines 364, 379, 397, 409). -/
def startRX (target : List Char) (s : String) : Bool :=
  target.isPrefixOf (dropWS s.data)

/-- Embeds the `^\s*\}\s*KW\s*C` decrease-increase regexes (`} else {`,
`} catch (`, `} finally {`; lines 367, 382-384). -/
def braceKwRX (kw opener : List Char) (s : String) : Bool :=
  match dropWS s.data with
  | '}' :: u =>
    kw.isPrefixOf (dropWS u) && opener.isPrefixOf (dropWS ((dropWS u).drop kw.length))
  | _ => false

/-- Matcher for `[^/>]*>$`: characters other than `/` and `>` (a negated
class does match a newline), then `>` ending the text. -/
def htmlSegRX : List Char → Bool
  | [] => false
  | c :: rest =>
    if c = '>' then rest.isEmpty
    else if c = '/' then false
    else htmlSegRX rest

def htmlOpenEndAux : List Char → Bool
  | [] => false
  | c :: rest =>
    (c = '<' &&
      (match rest with
       | c2 :: rest2 => c2.isAlpha && htmlSegRX rest2
       | [] => false)) || htmlOpenEndAux rest

/-- Embeds the HTML increase regex `<[a-zA-Z][^/>]*>$` (line 393). -/
def htmlOpenEndRX (s : String) : Bool :=
  htmlOpenEndAux s.data

/-- The block-element alternation of the second HTML increase regex. -/
def htmlBlockNames : List (List Char) :=
  ["div".data, "p".data, "ul".data, "ol".data, "li".data, "table".data, "tr".data,
   "td".data, "th".data, "head".data, "body".data, "html".data, "section".data,
   "article".data, "nav".data, "aside".data, "header".data, "footer".data,
   "main".data]

def htmlBlockAux : List Char → Bool
  | [] => false
  | c :: rest =>
    (c = '<' && htmlBlockNames.any (fun nm =>
        nm.isPrefixOf rest && (rest.drop nm.length).contains '>')) || htmlBlockAux rest

/-- Embeds the HTML increase regex `<(div|p|...|main)[^>]*>` (line 394): a
`<`, one of the names, then any characters other than `>` and a `>`. -/
def htmlBlockRX (s : String) : Bool :=
  htmlBlockAux s.data

/-- Matcher for `.*\*/\s*$`: a `*/` reachable without crossing a newline,
followed by whitespace up to the end. -/
def cssCloseRX : List Char → Bool
  | [] => false
  | c :: rest =>
    if c = '\n' then false
    else (c = '*' && rest.head? = some '/' && (rest.drop 1).all wsRX) || cssCloseRX rest

def cssBraceEndAux : List Char → Bool
  | [] => false
  | c :: rest =>
    (c = '{' && ((dropWS rest).isEmpty ||
        (['/', '*'].isPrefixOf (dropWS rest) && cssCloseRX ((dropWS rest).drop 2)))) ||
      cssBraceEndAux rest

/-- Embeds the CSS increase regex `\{\s*(?:/\*.*\*/\s*)?$` (line 406). -/
def cssBraceEndRX (s : String) : Bool :=
  cssBraceEndAux s.data

/-- Embeds the YAML increase regex `:\s*$` (line 418). -/
def yamlColonEndRX (s : String) : Bool :=
  endsAfterRX [':'] [] s.data

/-- Unanchored search `:\s*T` for the YAML block-scalar markers. -/
def colonThenRX (target : Char) : List Char → Bool
  | [] => false
  | c :: rest => (c = ':' && (dropWS rest).head? = some target) || colonThenRX target rest

/-- Embeds the YAML increase regex `:\s*\|` (line 419). -/
def yamlLiteralRX (s : String) : Bool :=
  colonThenRX '|' s.data

/-- Embeds the YAML increase regex `:\s*>` (line 420). -/
def yamlFoldedRX (s : String) : Bool :=
  colonThenRX '>' s.data

/-- Embeds the YAML increase regex `^\s*-\s*$` (line 421). -/
def yamlDashOnlyRX (s : String) : Bool :=
  match dropWS s.data with
  | '-' :: u => (dropWS u).isEmpty
  | _ => false

/-- Embeds the YAML increase regex `^\s*-\s+\w+:\s*$` (line 422). -/
def yamlDashKeyRX (s : String) : Bool :=
  match dropWS s.data with
  | '-' :: u =>
    (match u with
     | c :: _ => wsRX c
     | [] => false) &&
    (match dropWS u with
     | c :: _ => wordRX c
     | [] => false) &&
    (match (dropWS u).dropWhile wordRX with
     | ':' :: v => (dropWS v).isEmpty
     | _ => false)
  | _ => false

/-! ### The smart indentation engine -/

/-- Embeds `struct IndentRule` (`src/syntax.rs` lines 331-339); each compiled
regex is embedded as its `is_match` function. -/
structure IndentRule where
  increase_patterns : List (String → Bool)
  decrease_patterns : List (String → Bool)
  decrease_increase_patterns : List (String → Bool)

/-- Embeds `IndentRule::python` (`src/syntax.rs` lines 342-355). -/
def IndentRule.python : IndentRule :=
  ⟨[pyIncColonRX, pyDecoratorRX], [pyDecRX], [pyDecIncRX]⟩

/-- Embeds `IndentRule::rust` (lines 357-370). -/
def IndentRule.rust : IndentRule :=
  ⟨[braceEndRX, arrowEndRX], [fun s => startRX ['}'] s],
   [fun s => braceKwRX "else".data ['{'] s]⟩

/-- Embeds `IndentRule::javascript` (lines 372-387). -/
def IndentRule.javascript : IndentRule :=
  ⟨[braceEndRX, arrowEndRX], [fun s => startRX ['}'] s],
   [fun s => braceKwRX "else".data ['{'] s, fun s => braceKwRX "catch".data ['('] s,
    fun s => braceKwRX "finally".data ['{'] s]⟩

/-- Embeds `IndentRule::html` (lines 389-401). -/
def IndentRule.html : IndentRule :=
  ⟨[htmlOpenEndRX, htmlBlockRX], [fun s => startRX ['<', '/'] s], []⟩

/-- Embeds `IndentRule::css` (lines 403-413). -/
def IndentRule.css : IndentRule :=
  ⟨[cssBraceEndRX], [fun s => startRX ['}'] s], []⟩

/-- Embeds `IndentRule::yaml` (lines 415-429). -/
def IndentRule.yaml : IndentRule :=
  ⟨[yamlColonEndRX, yamlLiteralRX, yamlFoldedRX, yamlDashOnlyRX, yamlDashKeyRX],
   [], []⟩

/-- Embeds the rule table built by `SmartIndenter::new` (`src/syntax.rs` lines
437-449): `Plain` and `Dockerfile` have no rule entry. -/
def smartRules : FileType → Option IndentRule
  | FileType.Python => some IndentRule.python
  | FileType.Rust => some IndentRule.rust
  | FileType.JavaScript => some IndentRule.javascript
  | FileType.TypeScript => some IndentRule.javascript
  | FileType.HTML => some IndentRule.html
  | FileType.CSS => some IndentRule.css
  | FileType.YAML => some IndentRule.yaml
  | FileType.Plain => none
  | FileType.Dockerfile => none

def get_line_indent_aux (tab_size : Nat) : List Char → Nat
  | [] => 0
  | c :: rest =>
    if c = ' ' then 1 + get_line_indent_aux tab_size rest
    else if c = '\t' then tab_size + get_line_indent_aux tab_size rest
    else 0

/-- Embeds `SmartIndenter::get_line_indent` (`src/syntax.rs` lines 505-515):
column width of the leading whitespace, a space counting 1 and a tab
`tab_size`, stopping at the first other character. -/
def get_line_indent (line : String) (tab_size : Nat) : Nat :=
  get_line_indent_aux tab_size line.data

/-- Embeds `SmartIndenter::get_previous_indent` (`src/syntax.rs` lines
517-524). The source indexes `lines[current_line_idx - 1]` with no clamping;
`none` models the Rust index-out-of-bounds panic when that index is not below
`lines.len()`. -/
def get_previous_indent (lines : List String) (current_line_idx : Nat)
    (tab_size : Nat) : Option Nat :=
  if current_line_idx = 0 then some 0
  else
    match lines[current_line_idx - 1]? with
    | some prev_line => some (get_line_indent prev_line tab_size)
    | none => none

/-- Rust `str::trim` (ASCII whitespace fragment). -/
def rustTrim (s : String) : List Char :=
  ((s.data.dropWhile isRustWs).reverse.dropWhile isRustWs).reverse

/-- Rust `str::contains` with a string pattern, on character lists. -/
def containsSub : List Char → List Char → Bool
  | [], needle => needle.isEmpty
  | c :: tl, needle => needle.isPrefixOf (c :: tl) || containsSub tl needle

/-- The body of `SmartIndenter::calculate_indent` once the previous line is
selected (`src/syntax.rs` lines 479-502): decrease patterns on the current
line (`saturating_sub` is `Nat` subtraction), decrease-increase patterns on
the current line, the Python `__name__`/`__main__` top-level special case,
increase patterns on the previous line, else the previous indent. -/
def calc_from_prev (rule : IndentRule) (prev_line : String)
    (current_line_content : String) (file_type : FileType) (tab_size : Nat) : Nat :=
  let prev_indent := get_line_indent prev_line tab_size
  if rule.decrease_patterns.any (fun p => p current_line_content) then
    prev_indent - tab_size
  else if rule.decrease_increase_patterns.any (fun p => p current_line_content) then
    prev_indent
  else if file_type = FileType.Python && prev_indent = 0 &&
      containsSub (rustTrim prev_line) "__name__".data &&
      containsSub (rustTrim prev_line) "__main__".data then
    0
  else if rule.increase_patterns.any (fun p => p prev_line) then
    prev_indent + tab_size
  else prev_indent

/-- Embeds `SmartIndenter::calculate_indent` (`src/syntax.rs` lines 452-503),
with the rule table as a parameter; `none` models a Rust panic (which only the
no-rule fallback path can reach, through `get_previous_indent`). -/
def calculate_indent (rules : FileType → Option IndentRule) (lines : List String)
    (current_line_idx : Nat) (current_line_content : String) (file_type : FileType)
    (tab_size : Nat) : Option Nat :=
  match rules file_type with
  | none => get_previous_indent lines current_line_idx tab_size
  | some rule =>
    if lines.isEmpty then some 0
    else if lines.length ≤ current_line_idx then
      some (calc_from_prev rule (lines.getD (lines.length - 1) "")
        current_line_content file_type tab_size)
    else if current_line_idx = 0 then some 0
    else
      some (calc_from_prev rule (lines.getD (current_line_idx - 1) "")
        current_line_content file_type tab_size)

/-! ### Claims C4 and C9 -/

/-- C4: the claimed totality fails. With a file type that has no rule table
(`Plain`), `calculate_indent` falls back to `get_previous_indent`, which
indexes `history_lines[target_index - 1]` without clamping: with one history
line and target index 2 it reads index 1 out of bounds and panics (modelled as
`none`), where the claim promises the last available line is used. The same
input under a rule table (`Python`) is clamped and returns the previous
line's indent. -/
theorem C4_fallback_oob :
    calculate_indent smartRules ["x"] 2 "y" FileType.Plain 4 = none ∧
      calculate_indent smartRules ["x"] 2 "y" FileType.Python 4 = some 0 := by
  constructor <;> rfl

/-- C9: the two worked examples. With tab size 4 and Python rules, history
`["def f():"]` at target index 1 with candidate `""` gives indent 4 (increase
after the colon line), and history `["if x:", "    pass"]` at target index 2
with candidate `"else:"` gives 0 (decrease from previous indent 4). -/
theorem C9_indent_examples :
    calculate_indent smartRules ["def f():"] 1 "" FileType.Python 4 = some 4 ∧
      calculate_indent smartRules ["if x:", "    pass"] 2 "else:" FileType.Python 4 =
        some 0 := by
  constructor <;> rfl

end Edit
